import Mathlib

/-!
Verification of the Schelling segregation model engine (schelling.py).

The Python engine is embedded shallowly:
  * grid cells become the inductive type Cell;
  * the grid becomes a list of rows (grid[x][y] indexing as in the source);
  * Python floats become rationals;
  * the random source becomes an explicit tape of natural numbers, with
    random.randint(0, n-1) modelled as consuming one tape entry modulo n;
  * rejection-sampling loops recurse on the remaining tape and return
    none when the tape is exhausted (covering non-termination);
  * run returns an Except value: the ZeroDivision error models Python's
    ZeroDivisionError raised by steps_run % print_every when
    print_every = 0.
Console printing and plotting have no effect on engine state and are
modelled as no-ops.
-/

inductive Cell
| empty
| A
| B
deriving DecidableEq, Repr

abbrev Grid := List (List Cell)

abbrev Tape := List Nat

/-- Reading grid[x][y]; out-of-bounds reads default to empty (all modelled
accesses are in bounds). -/
def cellAt (g : Grid) (x y : Nat) : Cell :=
(g.getD x []).getD y Cell.empty

/-- Writing grid[x][y] = c. -/
def setCell (g : Grid) (p : Nat × Nat) (c : Cell) : Grid :=
g.set p.1 ((g.getD p.1 []).set p.2 c)

/-- Number of cells of a row holding value c (specification-side counting
device). -/
def rowCount (c : Cell) : List Cell → Nat
| [] => 0
| v :: vs => (if v = c then 1 else 0) + rowCount c vs

/-- Number of cells of the whole grid holding value c. -/
def countCell (g : Grid) (c : Cell) : Nat :=
(g.map (rowCount c)).sum

/-- The simulation state: configuration fields, the grid, and the
run-loop counters, exactly the attributes of the SchellingModel class. -/
structure Model where
  x_size : Nat
  y_size : Nat
  n_agents : Nat
  share_a : ℚ
  stay_threshold : ℚ
  grid : Grid
  segregation_shares : List ℚ
  steps_run : Nat
deriving DecidableEq, Repr

/-- Embedding of SchellingModel.__check_inputs (the conjunction of its
assertions). -/
def check_inputs (xs ys n : Nat) (sa st : ℚ) : Bool :=
decide (1 < xs ∧ 1 < ys ∧ n < xs * ys ∧ 1 < n ∧
  0 ≤ sa ∧ sa ≤ 1 ∧ 0 ≤ st ∧ st ≤ 1)

/-- Embedding of SchellingModel.__find_empty_cell: draw x from
randint(0, len(grid)-1) and y from randint(0, len(grid[0])-1), retry
while the cell is occupied.  Returns none when the tape runs out. -/
def find_empty_cell (g : Grid) : Tape → Option ((Nat × Nat) × Tape)
| [] => none
| [_] => none
| kx :: ky :: rest =>
  let x := kx % g.length
  let y := ky % (g.headD []).length
  if cellAt g x y = Cell.empty then some ((x, y), rest)
  else find_empty_cell g rest

/-- Embedding of SchellingModel.__find_full_cell: draw x from
randint(0, x_size-1) and y from randint(0, y_size-1), retry while the
cell is empty. -/
def find_full_cell (xs ys : Nat) (g : Grid) : Tape → Option ((Nat × Nat) × Tape)
| [] => none
| [_] => none
| kx :: ky :: rest =>
  let x := kx % xs
  let y := ky % ys
  if cellAt g x y = Cell.empty then find_full_cell xs ys g rest
  else some ((x, y), rest)

/-- The placement loop bodies of __initialize_grid: place the given cell
value k times, each time into a freshly found empty cell. -/
def placeCells (c : Cell) : Nat → Grid → Tape → Option (Grid × Tape)
| 0, g, t => some (g, t)
| k + 1, g, t =>
  match find_empty_cell g t with
  | none => none
  | some (p, t1) => placeCells c k (setCell g p c) t1

/-- Embedding of SchellingModel.__initialize_grid: an x_size list of
y_size rows of empty cells, then floor(n/2) cells set to A and
ceil(n) = n cells set to B. -/
def initialize_grid (xs ys n : Nat) (t : Tape) : Option (Grid × Tape) :=
let g0 : Grid := List.replicate xs (List.replicate ys Cell.empty)
match placeCells Cell.A (n / 2) g0 t with
| none => none
| some (g1, t1) => placeCells Cell.B n g1 t1

/-- Embedding of SchellingModel.__init__: validate the inputs, then
initialize the grid; counters start at zero. -/
def mkModel (xs ys n : Nat) (sa st : ℚ) (t : Tape) : Option (Model × Tape) :=
if check_inputs xs ys n sa st then
  match initialize_grid xs ys n t with
  | none => none
  | some (g, t1) =>
    some ({ x_size := xs, y_size := ys, n_agents := n, share_a := sa,
            stay_threshold := st, grid := g, segregation_shares := [],
            steps_run := 0 }, t1)
else none

/-- Embedding of SchellingModel.__get_neighbor_positions: the candidate
offsets of the surrounding three-by-three block, in the order of the
Python double loop (i outer, j inner). -/
def neighborOffsets : List (Int × Int) :=
[(-1, -1), (-1, 0), (-1, 1), (0, -1), (0, 0), (0, 1), (1, -1), (1, 0), (1, 1)]

/-- Embedding of SchellingModel.__get_neighbor_positions: keep the
offset positions lying inside the grid bounds, with the original
position itself excluded. -/
def get_neighbor_positions (xs ys : Int) (pos : Int × Int) : List (Int × Int) :=
neighborOffsets.filterMap (fun d =>
  let x := pos.1 + d.1
  let y := pos.2 + d.2
  if 0 ≤ x ∧ x < xs ∧ 0 ≤ y ∧ y < ys ∧ (x, y) ≠ pos then some (x, y) else none)

/-- Reading grid[x][y] at an integer position (only in-bounds,
nonnegative positions are ever produced). -/
def cellAtI (g : Grid) (p : Int × Int) : Cell :=
cellAt g p.1.toNat p.2.toNat

/-- Embedding of SchellingModel.__count_neighbors: tally A and B cells
over the neighbor positions. -/
def count_neighbors (xs ys : Int) (g : Grid) (pos : Int × Int) : Nat × Nat :=
let ns := get_neighbor_positions xs ys pos
(ns.countP (fun q => decide (cellAtI g q = Cell.A)),
 ns.countP (fun q => decide (cellAtI g q = Cell.B)))

/-- Embedding of SchellingModel.__get_neighbor_relation: for an A agent,
1 when there is no B neighbor, else a_count / b_count; symmetrically for
a B agent; 1 for an empty cell. -/
def get_neighbor_relation (xs ys : Int) (g : Grid) (pos : Int × Int) : ℚ :=
let ab := count_neighbors xs ys g pos
match cellAtI g pos with
| Cell.A => if ab.2 = 0 then 1 else (ab.1 : ℚ) / (ab.2 : ℚ)
| Cell.B => if ab.1 = 0 then 1 else (ab.2 : ℚ) / (ab.1 : ℚ)
| Cell.empty => 1

/-- The counting loop of SchellingModel.get_segregation: the number of
positions (i, j), i ranging over len(grid) and j over len(grid[0]),
whose cell is occupied and whose neighbor relation reaches the stay
threshold. -/
def stayingCount (m : Model) : Nat :=
((List.range m.grid.length).map (fun i =>
  (List.range (m.grid.headD []).length).countP (fun j =>
    decide (cellAt m.grid i j ≠ Cell.empty ∧
      m.stay_threshold ≤
        get_neighbor_relation (m.x_size : Int) (m.y_size : Int) m.grid
          ((i : Int), (j : Int)))))).sum

/-- Embedding of SchellingModel.get_segregation: the staying count
divided by the configured agent count. -/
def get_segregation (m : Model) : ℚ :=
(stayingCount m : ℚ) / (m.n_agents : ℚ)

/-- Embedding of SchellingModel.__run_one_step: pick an occupied cell,
and when its neighbor relation is below the stay threshold move its
agent to a freshly found empty cell. -/
def run_one_step (m : Model) (t : Tape) : Option (Model × Tape) :=
match find_full_cell m.x_size m.y_size m.grid t with
| none => none
| some (ca, t1) =>
  let equals := get_neighbor_relation (m.x_size : Int) (m.y_size : Int)
    m.grid ((ca.1 : Int), (ca.2 : Int))
  if equals < m.stay_threshold then
    match find_empty_cell m.grid t1 with
    | none => none
    | some (np, t2) =>
      some ({ m with
        grid := setCell (setCell m.grid np (cellAt m.grid ca.1 ca.2)) ca
          Cell.empty }, t2)
  else some (m, t1)

/-- The per-step bookkeeping of run: increment steps_run, then append
the current segregation share. -/
def afterStep (m1 : Model) : Model :=
let m2 := { m1 with steps_run := m1.steps_run + 1 }
{ m2 with segregation_shares := m2.segregation_shares ++ [get_segregation m2] }

inductive RunError
| zeroDivision
| tapeExhausted
deriving DecidableEq, Repr

/-- The loop of SchellingModel.run: each iteration runs one step, does
the bookkeeping, and then evaluates steps_run % print_every, which
raises ZeroDivisionError when print_every = 0 (printing itself changes
no engine state). -/
def runLoop (pe : Int) : Nat → Model → Tape → Except RunError (Model × Tape)
| 0, m, t => Except.ok (m, t)
| k + 1, m, t =>
  match run_one_step m t with
  | none => Except.error RunError.tapeExhausted
  | some (m1, t1) =>
    if pe = 0 then Except.error RunError.zeroDivision
    else runLoop pe k (afterStep m1) t1

/-- Embedding of SchellingModel.run: the loop, plus the final optional
print which changes no engine state. -/
def run (m : Model) (steps : Nat) ( _print_at_end : Bool) (pe : Int)
    (t : Tape) : Except RunError (Model × Tape) :=
runLoop pe steps m t

/-- k successive Step Engine invocations, each followed by the run-loop
bookkeeping: the chain of states a completed run call passes through. -/
inductive StepChain : Model → Tape → Nat → Model → Tape → Prop
| zero (m : Model) (t : Tape) : StepChain m t 0 m t
| succ (m : Model) (t : Tape) (k : Nat) (m1 mf : Model) (t1 tf : Tape)
    (hstep : run_one_step m t = some (m1, t1))
    (hrest : StepChain (afterStep m1) t1 k mf tf) :
    StepChain m t (k + 1) mf tf

/-- A rectangular grid of the given dimensions. -/
def Rect (g : Grid) (xs ys : Nat) : Prop :=
g.length = xs ∧ ∀ row ∈ g, row.length = ys

theorem rowCount_nil (c : Cell) : rowCount c [] = 0 := rfl

theorem rowCount_cons (c v : Cell) (vs : List Cell) :
    rowCount c (v :: vs) = (if v = c then 1 else 0) + rowCount c vs := rfl

theorem countCell_nil (c : Cell) : countCell [] c = 0 := rfl

theorem countCell_cons (r : List Cell) (g : Grid) (c : Cell) :
    countCell (r :: g) c = rowCount c r + countCell g c := by
  simp [countCell]

theorem getD_set_self {α : Type} (l : List α) (j : Nat) (c d : α)
    (hj : j < l.length) : (l.set j c).getD j d = c := by
  induction l generalizing j with
  | nil => simp at hj
  | cons v vs ih =>
    cases j with
    | zero => rfl
    | succ j => exact ih j (by simpa using hj)

theorem getD_set_ne {α : Type} (l : List α) (i j : Nat) (c d : α)
    (h : j ≠ i) : (l.set i c).getD j d = l.getD j d := by
  induction l generalizing i j with
  | nil => rfl
  | cons v vs ih =>
    cases i with
    | zero =>
      cases j with
      | zero => exact absurd rfl h
      | succ j => rfl
    | succ i =>
      cases j with
      | zero => rfl
      | succ j => exact ih i j (fun hji => h (by simp [hji]))

theorem rowCount_set (c c1 : Cell) (l : List Cell) (j : Nat)
    (hj : j < l.length) :
    rowCount c1 (l.set j c) + (if l.getD j Cell.empty = c1 then 1 else 0)
      = rowCount c1 l + (if c = c1 then 1 else 0) := by
  induction l generalizing j with
  | nil => simp at hj
  | cons v vs ih =>
    cases j with
    | zero =>
      simp only [List.set_cons_zero, rowCount_cons, List.getD_cons_zero]
      split_ifs <;> omega
    | succ j =>
      have hj1 : j < vs.length := by simpa using hj
      have hrec := ih j hj1
      simp only [List.set_cons_succ, rowCount_cons, List.getD_cons_succ]
      split_ifs at hrec ⊢ <;> omega

theorem rowCount_total (l : List Cell) :
    rowCount Cell.A l + rowCount Cell.B l + rowCount Cell.empty l
      = l.length := by
  induction l with
  | nil => simp [rowCount]
  | cons v vs ih => cases v <;> simp [rowCount_cons] <;> omega

theorem rowCount_replicate (c v : Cell) (k : Nat) :
    rowCount c (List.replicate k v) = if v = c then k else 0 := by
  induction k with
  | zero => simp [rowCount]
  | succ k ih => simp [List.replicate_succ, rowCount_cons, ih]; split_ifs <;> omega

theorem exists_getD_of_rowCount (c : Cell) (l : List Cell)
    (h : 1 ≤ rowCount c l) :
    ∃ j, j < l.length ∧ l.getD j Cell.empty = c := by
  induction l with
  | nil => simp [rowCount] at h
  | cons v vs ih =>
    rw [rowCount_cons] at h
    by_cases hv : v = c
    · exact ⟨0, by simp, by simpa using hv⟩
    · have h1 : 1 ≤ rowCount c vs := by
        simp [hv] at h; exact h
      obtain ⟨j, hj, hg⟩ := ih h1
      exact ⟨j + 1, by simpa using hj, by simpa using hg⟩

theorem setCell_cons_zero (r : List Cell) (g : Grid) (y : Nat) (c : Cell) :
    setCell (r :: g) (0, y) c = r.set y c :: g := rfl

theorem setCell_cons_succ (r : List Cell) (g : Grid) (x y : Nat) (c : Cell) :
    setCell (r :: g) (x + 1, y) c = r :: setCell g (x, y) c := rfl

theorem cellAt_cons_zero (r : List Cell) (g : Grid) (y : Nat) :
    cellAt (r :: g) 0 y = r.getD y Cell.empty := rfl

theorem cellAt_cons_succ (r : List Cell) (g : Grid) (x y : Nat) :
    cellAt (r :: g) (x + 1) y = cellAt g x y := rfl

theorem length_setCell (g : Grid) (p : Nat × Nat) (c : Cell) :
    (setCell g p c).length = g.length := by
  simp [setCell]

theorem countCell_setCell (g : Grid) (x y : Nat) (c c1 : Cell)
    (hx : x < g.length) (hy : y < (g.getD x []).length) :
    countCell (setCell g (x, y) c) c1 + (if cellAt g x y = c1 then 1 else 0)
      = countCell g c1 + (if c = c1 then 1 else 0) := by
  induction g generalizing x with
  | nil => simp at hx
  | cons r g ih =>
    cases x with
    | zero =>
      have hy1 : y < r.length := by simpa using hy
      have hrow := rowCount_set c c1 r y hy1
      simp only [setCell_cons_zero, countCell_cons, cellAt_cons_zero]
      simp only [List.getD_cons_zero] at hrow ⊢
      split_ifs at hrow ⊢ <;> omega
    | succ x =>
      have hx1 : x < g.length := by simpa using hx
      have hy1 : y < (g.getD x []).length := by simpa using hy
      have hrec := ih x hx1 hy1
      simp only [setCell_cons_succ, countCell_cons, cellAt_cons_succ]
      split_ifs at hrec ⊢ <;> omega

theorem cellAt_setCell_self (g : Grid) (x y : Nat) (c : Cell)
    (hx : x < g.length) (hy : y < (g.getD x []).length) :
    cellAt (setCell g (x, y) c) x y = c := by
  induction g generalizing x with
  | nil => simp at hx
  | cons r g ih =>
    cases x with
    | zero =>
      have hy1 : y < r.length := by simpa using hy
      simp only [setCell_cons_zero, cellAt_cons_zero]
      exact getD_set_self r y c Cell.empty hy1
    | succ x =>
      exact ih x (by simpa using hx) (by simpa using hy)

theorem cellAt_setCell_ne (g : Grid) (px py x y : Nat) (c : Cell)
    (h : (x, y) ≠ (px, py)) :
    cellAt (setCell g (px, py) c) x y = cellAt g x y := by
  induction g generalizing px x with
  | nil => rfl
  | cons r g ih =>
    cases px with
    | zero =>
      cases x with
      | zero =>
        have hy : y ≠ py := by
          intro he; exact h (by simp [he])
        simp only [setCell_cons_zero, cellAt_cons_zero]
        exact getD_set_ne r py y c Cell.empty hy
      | succ x => rfl
    | succ px =>
      cases x with
      | zero => rfl
      | succ x =>
        simp only [setCell_cons_succ, cellAt_cons_succ]
        exact ih px x (fun he => h (by simpa using he))

theorem getD_mem {α : Type} (l : List α) (x : Nat) (d : α)
    (hx : x < l.length) : l.getD x d ∈ l := by
  induction l generalizing x with
  | nil => simp at hx
  | cons v vs ih =>
    cases x with
    | zero => simp
    | succ x => exact List.mem_cons_of_mem v (ih x (by simpa using hx))

theorem set_of_length_le {α : Type} (l : List α) (i : Nat) (a : α)
    (h : l.length ≤ i) : l.set i a = l := by
  induction l generalizing i with
  | nil => rfl
  | cons v vs ih =>
    cases i with
    | zero => simp at h
    | succ i => simp [List.set_cons_succ, ih i (by simpa using h)]

theorem rect_getD (g : Grid) (xs ys : Nat) (h : Rect g xs ys) (x : Nat)
    (hx : x < xs) : (g.getD x []).length = ys := by
  obtain ⟨hlen, hrow⟩ := h
  exact hrow _ (getD_mem g x [] (by omega))

theorem rect_headD (g : Grid) (xs ys : Nat) (h : Rect g xs ys)
    (hxs : 0 < xs) : (g.headD []).length = ys := by
  obtain ⟨hlen, hrow⟩ := h
  cases g with
  | nil => simp at hlen; omega
  | cons r g => exact hrow r (by simp)

theorem rect_setCell (g : Grid) (p : Nat × Nat) (c : Cell) (xs ys : Nat)
    (h : Rect g xs ys) : Rect (setCell g p c) xs ys := by
  obtain ⟨hlen, hrow⟩ := h
  constructor
  · simpa [length_setCell] using hlen
  · intro row hr
    by_cases hp : p.1 < g.length
    · rcases List.mem_or_eq_of_mem_set hr with hm | he
      · exact hrow row hm
      · rw [he, List.length_set]
        exact hrow _ (getD_mem g p.1 [] hp)
    · rw [setCell, set_of_length_le _ _ _ (by omega)] at hr
      exact hrow row hr

theorem exists_pos_of_countCell (g : Grid) (c : Cell)
    (h : 1 ≤ countCell g c) :
    ∃ x y, x < g.length ∧ y < (g.getD x []).length ∧ cellAt g x y = c := by
  induction g with
  | nil => simp [countCell_nil] at h
  | cons r g ih =>
    rw [countCell_cons] at h
    by_cases hr : 1 ≤ rowCount c r
    · obtain ⟨j, hj, hg⟩ := exists_getD_of_rowCount c r hr
      exact ⟨0, j, by simp, by simpa using hj, by simpa [cellAt_cons_zero] using hg⟩
    · have h1 : 1 ≤ countCell g c := by omega
      obtain ⟨x, y, hx, hy, hc⟩ := ih h1
      exact ⟨x + 1, y, by simpa using hx, by simpa using hy,
        by simpa [cellAt_cons_succ] using hc⟩

theorem find_empty_cell_spec (g : Grid) (t : Tape) (x y : Nat) (t1 : Tape)
    (hg : 0 < g.length) (hr : 0 < (g.headD []).length)
    (h : find_empty_cell g t = some ((x, y), t1)) :
    x < g.length ∧ y < (g.headD []).length ∧ cellAt g x y = Cell.empty := by
  induction t using find_empty_cell.induct g with
  | case1 => simp [find_empty_cell] at h
  | case2 => simp [find_empty_cell] at h
  | case3 kx ky rest xv yv hcell =>
    rw [find_empty_cell, if_pos hcell] at h
    obtain ⟨⟨hx, hy⟩, ht⟩ : (kx % g.length = x ∧ ky % (g.headD []).length = y)
        ∧ rest = t1 := by
      simpa using h
    subst hx; subst hy
    exact ⟨Nat.mod_lt _ hg, Nat.mod_lt _ hr, hcell⟩
  | case4 kx ky rest xv yv hcell ih =>
    rw [find_empty_cell, if_neg hcell] at h
    exact ih h

theorem find_empty_cell_hit (g : Grid) (x y : Nat) (hx : x < g.length)
    (hy : y < (g.headD []).length) (hc : cellAt g x y = Cell.empty) :
    find_empty_cell g [x, y] = some ((x, y), []) := by
  rw [find_empty_cell]
  rw [Nat.mod_eq_of_lt hx, Nat.mod_eq_of_lt hy, if_pos hc]

theorem find_full_cell_spec (xs ys : Nat) (g : Grid) (t : Tape)
    (x y : Nat) (t1 : Tape) (hxs : 0 < xs) (hys : 0 < ys)
    (h : find_full_cell xs ys g t = some ((x, y), t1)) :
    x < xs ∧ y < ys ∧ cellAt g x y ≠ Cell.empty := by
  induction t using find_full_cell.induct xs ys g with
  | case1 => simp [find_full_cell] at h
  | case2 => simp [find_full_cell] at h
  | case3 kx ky rest xv yv hcell ih =>
    rw [find_full_cell, if_pos hcell] at h
    exact ih h
  | case4 kx ky rest xv yv hcell =>
    rw [find_full_cell, if_neg hcell] at h
    obtain ⟨⟨hx, hy⟩, ht⟩ : (kx % xs = x ∧ ky % ys = y) ∧ rest = t1 := by
      simpa using h
    subst hx; subst hy
    exact ⟨Nat.mod_lt _ hxs, Nat.mod_lt _ hys, hcell⟩

theorem find_full_cell_hit (xs ys : Nat) (g : Grid) (x y : Nat)
    (hx : x < xs) (hy : y < ys) (hc : cellAt g x y ≠ Cell.empty) :
    find_full_cell xs ys g [x, y] = some ((x, y), []) := by
  rw [find_full_cell]
  rw [Nat.mod_eq_of_lt hx, Nat.mod_eq_of_lt hy, if_neg hc]

theorem countCell_replicate (xs ys : Nat) (v c : Cell) :
    countCell (List.replicate xs (List.replicate ys v)) c
      = if v = c then xs * ys else 0 := by
  induction xs with
  | zero => simp [countCell_nil]
  | succ xs ih =>
    rw [List.replicate_succ, countCell_cons, ih, rowCount_replicate]
    split_ifs <;> ring_nf

theorem rect_replicate (xs ys : Nat) :
    Rect (List.replicate xs (List.replicate ys Cell.empty)) xs ys := by
  constructor
  · simp
  · intro row hr
    rw [List.eq_of_mem_replicate hr]
    simp

theorem placeCells_spec (c : Cell) (xs ys : Nat) (k : Nat) :
    ∀ (g : Grid) (t : Tape) (g1 : Grid) (t1 : Tape),
      c ≠ Cell.empty → 0 < xs → 0 < ys → Rect g xs ys →
      placeCells c k g t = some (g1, t1) →
      Rect g1 xs ys ∧ countCell g1 c = countCell g c + k ∧
        countCell g1 Cell.empty + k = countCell g Cell.empty ∧
        ∀ c1, c1 ≠ c → c1 ≠ Cell.empty → countCell g1 c1 = countCell g c1 := by
  induction k with
  | zero =>
    intro g t g1 t1 _ _ _ hrect h
    obtain ⟨hg, ht⟩ : g = g1 ∧ t = t1 := by simpa [placeCells] using h
    subst hg
    exact ⟨hrect, by omega, by omega, fun c1 _ _ => rfl⟩
  | succ k ih =>
    intro g t g1 t1 hc hxs hys hrect h
    rw [placeCells] at h
    cases hfe : find_empty_cell g t with
    | none => rw [hfe] at h; simp at h
    | some res =>
      rw [hfe] at h
      obtain ⟨⟨p1, p2⟩, t2⟩ := res
      have hg0 : 0 < g.length := by rw [hrect.1]; omega
      have hr0 : 0 < (g.headD []).length := by
        rw [rect_headD g xs ys hrect hxs]; omega
      obtain ⟨hp1, hp2, hpe⟩ :=
        find_empty_cell_spec g t p1 p2 t2 hg0 hr0 hfe
      have hp1x : p1 < xs := by rwa [hrect.1] at hp1
      have hp2y : p2 < ys := by
        rwa [rect_headD g xs ys hrect hxs] at hp2
      have hp2g : p2 < (g.getD p1 []).length := by
        rw [rect_getD g xs ys hrect p1 hp1x]; omega
      have hrect2 := rect_setCell g (p1, p2) c xs ys hrect
      obtain ⟨hrect1, hcnt, hemp, hoth⟩ :=
        ih (setCell g (p1, p2) c) t2 g1 t1 hc hxs hys hrect2 h
      refine ⟨hrect1, ?_, ?_, ?_⟩
      · have hset := countCell_setCell g p1 p2 c c hp1 hp2g
        rw [hpe] at hset
        have hne : Cell.empty ≠ c := fun he => hc he.symm
        rw [if_neg hne, if_pos rfl] at hset
        omega
      · have hset := countCell_setCell g p1 p2 c Cell.empty hp1 hp2g
        rw [hpe] at hset
        have hne : c ≠ Cell.empty := hc
        rw [if_pos rfl, if_neg hne] at hset
        omega
      · intro c1 h1 h2
        have hset := countCell_setCell g p1 p2 c c1 hp1 hp2g
        rw [hpe] at hset
        have hn1 : Cell.empty ≠ c1 := fun he => h2 he.symm
        have hn2 : c ≠ c1 := fun he => h1 he.symm
        rw [if_neg hn1, if_neg hn2] at hset
        rw [hoth c1 h1 h2]
        omega

theorem initialize_grid_spec (xs ys n : Nat) (t : Tape) (g : Grid)
    (t1 : Tape) (hxs : 0 < xs) (hys : 0 < ys)
    (h : initialize_grid xs ys n t = some (g, t1)) :
    Rect g xs ys ∧ countCell g Cell.A = n / 2 ∧ countCell g Cell.B = n ∧
      countCell g Cell.empty + (n / 2 + n) = xs * ys := by
  simp only [initialize_grid] at h
  cases ha : placeCells Cell.A (n / 2)
      (List.replicate xs (List.replicate ys Cell.empty)) t with
  | none => rw [ha] at h; simp at h
  | some resA =>
    rw [ha] at h
    obtain ⟨gA, tA⟩ := resA
    obtain ⟨hrectA, hcntA, hempA, hothA⟩ :=
      placeCells_spec Cell.A xs ys (n / 2) _ t gA tA (by simp) hxs hys
        (rect_replicate xs ys) ha
    obtain ⟨hrectB, hcntB, hempB, hothB⟩ :=
      placeCells_spec Cell.B xs ys n gA tA g t1 (by simp) hxs hys hrectA h
    have hA0 : countCell (List.replicate xs (List.replicate ys Cell.empty))
        Cell.A = 0 := by rw [countCell_replicate]; simp
    have hB0 : countCell (List.replicate xs (List.replicate ys Cell.empty))
        Cell.B = 0 := by rw [countCell_replicate]; simp
    have hE0 : countCell (List.replicate xs (List.replicate ys Cell.empty))
        Cell.empty = xs * ys := by rw [countCell_replicate]; simp
    have hBA : countCell gA Cell.B = 0 := by
      rw [hothA Cell.B (by simp) (by simp)]; exact hB0
    have hAB : countCell g Cell.A = countCell gA Cell.A := by
      rw [hothB Cell.A (by simp) (by simp)]
    refine ⟨hrectB, ?_, ?_, ?_⟩
    · rw [hAB, hcntA, hA0]; omega
    · rw [hcntB, hBA]; omega
    · omega

theorem mkModel_spec (xs ys n : Nat) (sa st : ℚ) (t : Tape) (m : Model)
    (t1 : Tape) (h : mkModel xs ys n sa st t = some (m, t1)) :
    m.x_size = xs ∧ m.y_size = ys ∧ m.n_agents = n ∧ m.share_a = sa ∧
    m.stay_threshold = st ∧ m.segregation_shares = [] ∧ m.steps_run = 0 ∧
    Rect m.grid xs ys ∧ countCell m.grid Cell.A = n / 2 ∧
    countCell m.grid Cell.B = n ∧
    countCell m.grid Cell.empty + (n / 2 + n) = xs * ys ∧
    1 < xs ∧ 1 < ys ∧ 1 < n ∧ n < xs * ys := by
  unfold mkModel at h
  by_cases hv : check_inputs xs ys n sa st = true
  · rw [if_pos hv] at h
    obtain ⟨h1, h2, h3, h4, -⟩ : 1 < xs ∧ 1 < ys ∧ n < xs * ys ∧ 1 < n ∧
        (0 ≤ sa ∧ sa ≤ 1 ∧ 0 ≤ st ∧ st ≤ 1) := by
      simpa [check_inputs, and_assoc] using hv
    cases hinit : initialize_grid xs ys n t with
    | none => rw [hinit] at h; simp at h
    | some res =>
      rw [hinit] at h
      obtain ⟨g, tg⟩ := res
      simp only [Option.some.injEq, Prod.mk.injEq] at h
      obtain ⟨hm, ht⟩ := h
      subst hm
      obtain ⟨hrect, hA, hB, hE⟩ :=
        initialize_grid_spec xs ys n t g tg (by omega) (by omega) hinit
      exact ⟨rfl, rfl, rfl, rfl, rfl, rfl, rfl, hrect, hA, hB, hE,
        h1, h2, h4, h3⟩
  · rw [if_neg hv] at h
    simp at h

theorem run_one_step_fields (m m1 : Model) (t t1 : Tape)
    (h : run_one_step m t = some (m1, t1)) :
    m1.x_size = m.x_size ∧ m1.y_size = m.y_size ∧ m1.n_agents = m.n_agents ∧
    m1.share_a = m.share_a ∧ m1.stay_threshold = m.stay_threshold ∧
    m1.segregation_shares = m.segregation_shares ∧
    m1.steps_run = m.steps_run := by
  simp only [run_one_step] at h
  cases hf : find_full_cell m.x_size m.y_size m.grid t with
  | none => rw [hf] at h; simp at h
  | some res =>
    rw [hf] at h
    obtain ⟨ca, t2⟩ := res
    simp only [] at h
    by_cases hlt : get_neighbor_relation (m.x_size : Int) (m.y_size : Int)
        m.grid ((ca.1 : Int), (ca.2 : Int)) < m.stay_threshold
    · rw [if_pos hlt] at h
      cases he : find_empty_cell m.grid t2 with
      | none => rw [he] at h; simp at h
      | some res2 =>
        rw [he] at h
        simp only [Option.some.injEq, Prod.mk.injEq] at h
        obtain ⟨np, t3⟩ := res2
        obtain ⟨hm, -⟩ := h
        subst hm
        exact ⟨rfl, rfl, rfl, rfl, rfl, rfl, rfl⟩
    · rw [if_neg hlt] at h
      simp only [Option.some.injEq, Prod.mk.injEq] at h
      obtain ⟨hm, -⟩ := h
      subst hm
      exact ⟨rfl, rfl, rfl, rfl, rfl, rfl, rfl⟩


theorem countCell_setCell_p (g : Grid) (p : Nat × Nat) (c c1 : Cell)
    (hx : p.1 < g.length) (hy : p.2 < (g.getD p.1 []).length) :
    countCell (setCell g p c) c1 + (if cellAt g p.1 p.2 = c1 then 1 else 0)
      = countCell g c1 + (if c = c1 then 1 else 0) := by
  obtain ⟨x, y⟩ := p
  exact countCell_setCell g x y c c1 hx hy

theorem cellAt_setCell_self_p (g : Grid) (p : Nat × Nat) (c : Cell)
    (hx : p.1 < g.length) (hy : p.2 < (g.getD p.1 []).length) :
    cellAt (setCell g p c) p.1 p.2 = c := by
  obtain ⟨x, y⟩ := p
  exact cellAt_setCell_self g x y c hx hy

theorem cellAt_setCell_ne_p (g : Grid) (p : Nat × Nat) (x y : Nat) (c : Cell)
    (h : (x, y) ≠ p) : cellAt (setCell g p c) x y = cellAt g x y := by
  obtain ⟨px, py⟩ := p
  exact cellAt_setCell_ne g px py x y c h

theorem run_one_step_spec (m m1 : Model) (t t1 : Tape)
    (hrect : Rect m.grid m.x_size m.y_size) (hx : 0 < m.x_size)
    (hy : 0 < m.y_size) (h : run_one_step m t = some (m1, t1)) :
    Rect m1.grid m.x_size m.y_size ∧
    (∀ c, countCell m1.grid c = countCell m.grid c) ∧
    ∃ p t2, find_full_cell m.x_size m.y_size m.grid t = some (p, t2) ∧
      p.1 < m.x_size ∧ p.2 < m.y_size ∧ cellAt m.grid p.1 p.2 ≠ Cell.empty ∧
      ((m.stay_threshold ≤ get_neighbor_relation (m.x_size : Int)
          (m.y_size : Int) m.grid ((p.1 : Int), (p.2 : Int)) ∧
        m1.grid = m.grid ∧ t1 = t2) ∨
       (get_neighbor_relation (m.x_size : Int) (m.y_size : Int) m.grid
          ((p.1 : Int), (p.2 : Int)) < m.stay_threshold ∧
        ∃ q t3, find_empty_cell m.grid t2 = some (q, t3) ∧ q ≠ p ∧
          cellAt m.grid q.1 q.2 = Cell.empty ∧
          cellAt m1.grid p.1 p.2 = Cell.empty ∧
          cellAt m1.grid q.1 q.2 = cellAt m.grid p.1 p.2 ∧
          (∀ r s, (r, s) ≠ p → (r, s) ≠ q →
            cellAt m1.grid r s = cellAt m.grid r s) ∧ t1 = t3)) := by
  simp only [run_one_step] at h
  split at h
  · simp at h
  · rename_i ca t2 hf
    obtain ⟨hca1, hca2, hcocc⟩ :=
      find_full_cell_spec m.x_size m.y_size m.grid t ca.1 ca.2 t2 hx hy hf
    split at h
    · rename_i hlt
      split at h
      · simp at h
      · rename_i np t3 he
        simp only [Option.some.injEq, Prod.mk.injEq] at h
        obtain ⟨hm, ht⟩ := h
        subst hm
        have hg0 : 0 < m.grid.length := by rw [hrect.1]; omega
        have hr0 : 0 < (m.grid.headD []).length := by
          rw [rect_headD m.grid m.x_size m.y_size hrect hx]; omega
        obtain ⟨hq1, hq2, hqe⟩ :=
          find_empty_cell_spec m.grid t2 np.1 np.2 t3 hg0 hr0 he
        have hq1x : np.1 < m.x_size := by rwa [hrect.1] at hq1
        have hq2g : np.2 < (m.grid.getD np.1 []).length := by
          rw [rect_getD m.grid m.x_size m.y_size hrect np.1 hq1x]
          rwa [rect_headD m.grid m.x_size m.y_size hrect hx] at hq2
        have hca1g : ca.1 < m.grid.length := by rw [hrect.1]; omega
        have hca2g : ca.2 < (m.grid.getD ca.1 []).length := by
          rw [rect_getD m.grid m.x_size m.y_size hrect ca.1 hca1]; omega
        have hne : np ≠ ca := by
          intro he2
          rw [he2] at hqe
          exact hcocc hqe
        have hrect1 : Rect (setCell m.grid np (cellAt m.grid ca.1 ca.2))
            m.x_size m.y_size :=
          rect_setCell m.grid np _ m.x_size m.y_size hrect
        have hca1g1 : ca.1 <
            (setCell m.grid np (cellAt m.grid ca.1 ca.2)).length := by
          rw [length_setCell]; omega
        have hca2g1 : ca.2 <
            ((setCell m.grid np (cellAt m.grid ca.1 ca.2)).getD ca.1
              []).length := by
          rw [rect_getD _ m.x_size m.y_size hrect1 ca.1 hca1]; omega
        have hrect2 : Rect (setCell (setCell m.grid np
            (cellAt m.grid ca.1 ca.2)) ca Cell.empty) m.x_size m.y_size :=
          rect_setCell _ ca Cell.empty m.x_size m.y_size hrect1
        have hcaval : cellAt (setCell m.grid np (cellAt m.grid ca.1 ca.2))
            ca.1 ca.2 = cellAt m.grid ca.1 ca.2 :=
          cellAt_setCell_ne_p m.grid np ca.1 ca.2 _ (Ne.symm hne)
        have hcounts : ∀ c, countCell (setCell (setCell m.grid np
            (cellAt m.grid ca.1 ca.2)) ca Cell.empty) c
              = countCell m.grid c := by
          intro c
          have hset1 := countCell_setCell_p m.grid np
            (cellAt m.grid ca.1 ca.2) c hq1 hq2g
          rw [hqe] at hset1
          have hset2 := countCell_setCell_p
            (setCell m.grid np (cellAt m.grid ca.1 ca.2)) ca Cell.empty c
            hca1g1 hca2g1
          rw [hcaval] at hset2
          split_ifs at hset1 hset2 <;> omega
        refine ⟨hrect2, hcounts, ca, t2, hf, hca1, hca2, hcocc,
          Or.inr ⟨hlt, np, t3, he, hne, hqe, ?_, ?_, ?_, ht.symm⟩⟩
        · exact cellAt_setCell_self_p _ ca Cell.empty hca1g1 hca2g1
        · rw [cellAt_setCell_ne_p _ ca np.1 np.2 Cell.empty hne]
          exact cellAt_setCell_self_p m.grid np _ hq1 hq2g
        · intro r s hrp hrq
          rw [cellAt_setCell_ne_p _ ca r s Cell.empty hrp]
          exact cellAt_setCell_ne_p m.grid np r s _ hrq
    · rename_i hlt
      simp only [Option.some.injEq, Prod.mk.injEq] at h
      obtain ⟨rfl, rfl⟩ := h
      exact ⟨hrect, fun c => rfl, ca, t2, hf, hca1, hca2, hcocc,
        Or.inl ⟨not_lt.mp hlt, rfl, rfl⟩⟩

theorem afterStep_grid (m : Model) : (afterStep m).grid = m.grid := rfl

theorem afterStep_x_size (m : Model) : (afterStep m).x_size = m.x_size := rfl

theorem afterStep_y_size (m : Model) : (afterStep m).y_size = m.y_size := rfl

theorem afterStep_n_agents (m : Model) :
    (afterStep m).n_agents = m.n_agents := rfl

theorem afterStep_threshold (m : Model) :
    (afterStep m).stay_threshold = m.stay_threshold := rfl

theorem afterStep_steps_run (m : Model) :
    (afterStep m).steps_run = m.steps_run + 1 := rfl

theorem afterStep_shares (m : Model) :
    (afterStep m).segregation_shares = m.segregation_shares ++
      [get_segregation { m with steps_run := m.steps_run + 1 }] := rfl

theorem stayingCount_steps_irrelevant (m : Model) (k : Nat) :
    stayingCount { m with steps_run := k } = stayingCount m := rfl

theorem get_segregation_steps_irrelevant (m : Model) (k : Nat) :
    get_segregation { m with steps_run := k } = get_segregation m := rfl

theorem stepChain_counters (m : Model) (t : Tape) (k : Nat) (mf : Model)
    (tf : Tape) (h : StepChain m t k mf tf) :
    mf.steps_run = m.steps_run + k ∧
    mf.segregation_shares.length = m.segregation_shares.length + k ∧
    ∃ s, mf.segregation_shares = m.segregation_shares ++ s := by
  induction h with
  | zero m t => exact ⟨rfl, rfl, [], by simp⟩
  | succ m t k m1 mf t1 tf hstep hrest ih =>
    obtain ⟨-, -, -, -, -, hsh, hsr⟩ := run_one_step_fields m m1 t t1 hstep
    obtain ⟨ih1, ih2, s, ih3⟩ := ih
    rw [afterStep_steps_run] at ih1
    rw [afterStep_shares] at ih2 ih3
    refine ⟨by omega, ?_, ?_⟩
    · have hlen : m1.segregation_shares.length
          = m.segregation_shares.length := by rw [hsh]
      rw [ih2]
      simp only [List.length_append, List.length_cons, List.length_nil]
      omega
    · rw [ih3, hsh]
      exact ⟨_, List.append_assoc _ _ _⟩

theorem stepChain_grid (m : Model) (t : Tape) (k : Nat) (mf : Model)
    (tf : Tape) (h : StepChain m t k mf tf) :
    Rect m.grid m.x_size m.y_size → 0 < m.x_size → 0 < m.y_size →
    mf.x_size = m.x_size ∧ mf.y_size = m.y_size ∧
    mf.n_agents = m.n_agents ∧ mf.stay_threshold = m.stay_threshold ∧
    Rect mf.grid m.x_size m.y_size ∧
    ∀ c, countCell mf.grid c = countCell m.grid c := by
  induction h with
  | zero m t =>
    intro hrect hx hy
    exact ⟨rfl, rfl, rfl, rfl, hrect, fun c => rfl⟩
  | succ m t k m1 mf t1 tf hstep hrest ih =>
    intro hrect hx hy
    obtain ⟨hxs, hys, hna, hsa, hth, -, -⟩ :=
      run_one_step_fields m m1 t t1 hstep
    obtain ⟨hrect1, hcnt, -⟩ := run_one_step_spec m m1 t t1 hrect hx hy hstep
    have hrectA : Rect (afterStep m1).grid (afterStep m1).x_size
        (afterStep m1).y_size := by
      rw [afterStep_grid, afterStep_x_size, afterStep_y_size, hxs, hys]
      exact hrect1
    have hxA : 0 < (afterStep m1).x_size := by
      rw [afterStep_x_size, hxs]; omega
    have hyA : 0 < (afterStep m1).y_size := by
      rw [afterStep_y_size, hys]; omega
    obtain ⟨j1, j2, j3, j4, j5, j6⟩ := ih hrectA hxA hyA
    rw [afterStep_x_size, hxs] at j1
    rw [afterStep_y_size, hys] at j2
    rw [afterStep_n_agents, hna] at j3
    rw [afterStep_threshold, hth] at j4
    rw [afterStep_x_size, afterStep_y_size, hxs, hys] at j5
    refine ⟨j1, j2, j3, j4, j5, fun c => ?_⟩
    rw [j6 c, afterStep_grid, hcnt c]

theorem runLoop_chain (pe : Int) (steps : Nat) :
    ∀ (m : Model) (t : Tape) (mf : Model) (tf : Tape),
      runLoop pe steps m t = Except.ok (mf, tf) →
      StepChain m t steps mf tf := by
  induction steps with
  | zero =>
    intro m t mf tf h
    obtain ⟨hm, ht⟩ : m = mf ∧ t = tf := by simpa [runLoop] using h
    subst hm; subst ht
    exact StepChain.zero m t
  | succ k ih =>
    intro m t mf tf h
    rw [runLoop] at h
    split at h
    · simp at h
    · rename_i m1 t1 hs
      split at h
      · simp at h
      · exact StepChain.succ m t k m1 mf t1 tf hs (ih _ _ _ _ h)

theorem countP_range_getD {α : Type} (l : List α) (d : α) (p : α → Bool) :
    (List.range l.length).countP (fun j => p (l.getD j d)) = l.countP p := by
  induction l with
  | nil => simp
  | cons v vs ih =>
    rw [List.length_cons, List.range_succ_eq_map, List.countP_cons,
      List.countP_map, List.countP_cons]
    simp only [Function.comp_def, List.getD_cons_zero, List.getD_cons_succ]
    rw [ih]

theorem map_range_getD {α β : Type} (l : List α) (d : α) (f : α → β) :
    (List.range l.length).map (fun i => f (l.getD i d)) = l.map f := by
  induction l with
  | nil => simp
  | cons v vs ih =>
    rw [List.length_cons, List.range_succ_eq_map, List.map_cons,
      List.map_map]
    simp only [Function.comp_def, List.getD_cons_zero, List.getD_cons_succ]
    rw [ih, List.map_cons]

theorem countP_occupied (l : List Cell) :
    l.countP (fun v => decide (v ≠ Cell.empty))
      = rowCount Cell.A l + rowCount Cell.B l := by
  induction l with
  | nil => rfl
  | cons v vs ih =>
    rw [List.countP_cons, ih, rowCount_cons, rowCount_cons]
    cases v <;> simp <;> omega

theorem sum_map_add {α : Type} (l : List α) (f f1 : α → Nat) :
    (l.map (fun a => f a + f1 a)).sum = (l.map f).sum + (l.map f1).sum := by
  induction l with
  | nil => rfl
  | cons v vs ih => simp [ih]; omega

theorem get_neighbor_relation_nonneg (xs ys : Int) (g : Grid)
    (pos : Int × Int) : 0 ≤ get_neighbor_relation xs ys g pos := by
  cases h : cellAtI g pos
  · simp only [get_neighbor_relation, h]
    exact zero_le_one
  · simp only [get_neighbor_relation, h]
    split_ifs
    · exact zero_le_one
    · exact div_nonneg (Nat.cast_nonneg _) (Nat.cast_nonneg _)
  · simp only [get_neighbor_relation, h]
    split_ifs
    · exact zero_le_one
    · exact div_nonneg (Nat.cast_nonneg _) (Nat.cast_nonneg _)

theorem stayingCount_le_occupied (m : Model)
    (hrect : Rect m.grid m.x_size m.y_size) :
    stayingCount m ≤ countCell m.grid Cell.A + countCell m.grid Cell.B := by
  unfold stayingCount
  have hstep : ∀ i ∈ List.range m.grid.length,
      (List.range (m.grid.headD []).length).countP (fun j =>
        decide (cellAt m.grid i j ≠ Cell.empty ∧
          m.stay_threshold ≤ get_neighbor_relation (m.x_size : Int)
            (m.y_size : Int) m.grid ((i : Int), (j : Int))))
        ≤ rowCount Cell.A (m.grid.getD i []) +
          rowCount Cell.B (m.grid.getD i []) := by
    intro i hi
    rw [List.mem_range] at hi
    have hxs0 : 0 < m.x_size := by rw [← hrect.1]; omega
    have hys : (m.grid.headD []).length = m.y_size :=
      rect_headD m.grid m.x_size m.y_size hrect hxs0
    have hrow : (m.grid.getD i []).length = m.y_size :=
      rect_getD m.grid m.x_size m.y_size hrect i (by rw [← hrect.1]; omega)
    calc (List.range (m.grid.headD []).length).countP (fun j =>
        decide (cellAt m.grid i j ≠ Cell.empty ∧
          m.stay_threshold ≤ get_neighbor_relation (m.x_size : Int)
            (m.y_size : Int) m.grid ((i : Int), (j : Int))))
        ≤ (List.range (m.grid.headD []).length).countP
            (fun j => decide (cellAt m.grid i j ≠ Cell.empty)) := by
          apply List.countP_mono_left
          intro j hj hp
          simp only [decide_eq_true_eq] at hp ⊢
          exact hp.1
      _ = (m.grid.getD i []).countP (fun v => decide (v ≠ Cell.empty)) := by
          rw [hys, ← hrow]
          exact countP_range_getD (m.grid.getD i []) Cell.empty
            (fun v => decide (v ≠ Cell.empty))
      _ = rowCount Cell.A (m.grid.getD i []) +
          rowCount Cell.B (m.grid.getD i []) := countP_occupied _
  calc ((List.range m.grid.length).map (fun i =>
      (List.range (m.grid.headD []).length).countP (fun j =>
        decide (cellAt m.grid i j ≠ Cell.empty ∧
          m.stay_threshold ≤ get_neighbor_relation (m.x_size : Int)
            (m.y_size : Int) m.grid ((i : Int), (j : Int)))))).sum
      ≤ ((List.range m.grid.length).map (fun i =>
          rowCount Cell.A (m.grid.getD i []) +
          rowCount Cell.B (m.grid.getD i []))).sum := List.sum_le_sum hstep
    _ = (m.grid.map (fun row => rowCount Cell.A row +
          rowCount Cell.B row)).sum :=
        congrArg List.sum (map_range_getD m.grid [] (fun row =>
          rowCount Cell.A row + rowCount Cell.B row))
    _ = countCell m.grid Cell.A + countCell m.grid Cell.B := by
        rw [sum_map_add]; rfl

theorem stayingCount_eq_occupied (m : Model)
    (hrect : Rect m.grid m.x_size m.y_size) (hst : m.stay_threshold ≤ 0) :
    stayingCount m = countCell m.grid Cell.A + countCell m.grid Cell.B := by
  unfold stayingCount
  have hstep : ∀ i ∈ List.range m.grid.length,
      (List.range (m.grid.headD []).length).countP (fun j =>
        decide (cellAt m.grid i j ≠ Cell.empty ∧
          m.stay_threshold ≤ get_neighbor_relation (m.x_size : Int)
            (m.y_size : Int) m.grid ((i : Int), (j : Int))))
        = rowCount Cell.A (m.grid.getD i []) +
          rowCount Cell.B (m.grid.getD i []) := by
    intro i hi
    rw [List.mem_range] at hi
    have hxs0 : 0 < m.x_size := by rw [← hrect.1]; omega
    have hys : (m.grid.headD []).length = m.y_size :=
      rect_headD m.grid m.x_size m.y_size hrect hxs0
    have hrow : (m.grid.getD i []).length = m.y_size :=
      rect_getD m.grid m.x_size m.y_size hrect i (by rw [← hrect.1]; omega)
    have hpred : (fun j => decide (cellAt m.grid i j ≠ Cell.empty ∧
        m.stay_threshold ≤ get_neighbor_relation (m.x_size : Int)
          (m.y_size : Int) m.grid ((i : Int), (j : Int))))
        = (fun j => decide (cellAt m.grid i j ≠ Cell.empty)) := by
      funext j
      rw [decide_eq_decide]
      constructor
      · exact And.left
      · intro ha
        exact ⟨ha, le_trans hst (get_neighbor_relation_nonneg _ _ _ _)⟩
    rw [hpred]
    have hcp : (List.range (m.grid.headD []).length).countP
        (fun j => decide (cellAt m.grid i j ≠ Cell.empty))
        = (m.grid.getD i []).countP (fun v => decide (v ≠ Cell.empty)) := by
      rw [hys, ← hrow]
      exact countP_range_getD (m.grid.getD i []) Cell.empty
        (fun v => decide (v ≠ Cell.empty))
    rw [hcp]
    exact countP_occupied _
  rw [List.map_congr_left hstep]
  have hmr : (List.range m.grid.length).map (fun i =>
      rowCount Cell.A (m.grid.getD i []) +
      rowCount Cell.B (m.grid.getD i []))
      = m.grid.map (fun row => rowCount Cell.A row + rowCount Cell.B row) :=
    map_range_getD m.grid [] (fun row =>
      rowCount Cell.A row + rowCount Cell.B row)
  rw [hmr, sum_map_add]
  rfl

/-- Claim C8: for every grid with x_size > 1 and y_size > 1 and every
in-bounds position (x, y), the neighbor position list has between 3
(corner) and 8 (interior) entries, all of them in bounds and none of
them equal to (x, y) itself (no wraparound). -/
theorem neighbor_positions_spec (xs ys x y : Int) (hxs : 1 < xs)
    (hys : 1 < ys) (hx0 : 0 ≤ x) (hx : x < xs) (hy0 : 0 ≤ y) (hy : y < ys) :
    3 ≤ (get_neighbor_positions xs ys (x, y)).length ∧
    (get_neighbor_positions xs ys (x, y)).length ≤ 8 ∧
    ∀ q ∈ get_neighbor_positions xs ys (x, y),
      0 ≤ q.1 ∧ q.1 < xs ∧ 0 ≤ q.2 ∧ q.2 < ys ∧ q ≠ (x, y) := by
  have hmem : ∀ q ∈ get_neighbor_positions xs ys (x, y),
      0 ≤ q.1 ∧ q.1 < xs ∧ 0 ≤ q.2 ∧ q.2 < ys ∧ q ≠ (x, y) := by
    intro q hq
    simp only [get_neighbor_positions] at hq
    rw [List.mem_filterMap] at hq
    obtain ⟨d, hd, hfd⟩ := hq
    split at hfd
    · rename_i hc
      obtain ⟨h1, h2, h3, h4, h5⟩ := hc
      injection hfd with he
      subst he
      exact ⟨h1, h2, h3, h4, h5⟩
    · exact absurd hfd (by simp)
  have e1 : (0 ≤ x + -1 ∧ x + -1 < xs ∧ 0 ≤ y + -1 ∧ y + -1 < ys ∧
      (x + -1, y + -1) ≠ (x, y)) ↔ (0 ≤ x + -1 ∧ 0 ≤ y + -1) := by
    simp [Prod.ext_iff]; omega
  have e2 : (0 ≤ x + -1 ∧ x + -1 < xs ∧ 0 ≤ y + 0 ∧ y + 0 < ys ∧
      (x + -1, y + 0) ≠ (x, y)) ↔ (0 ≤ x + -1) := by
    simp [Prod.ext_iff]; omega
  have e3 : (0 ≤ x + -1 ∧ x + -1 < xs ∧ 0 ≤ y + 1 ∧ y + 1 < ys ∧
      (x + -1, y + 1) ≠ (x, y)) ↔ (0 ≤ x + -1 ∧ y + 1 < ys) := by
    simp [Prod.ext_iff]; omega
  have e4 : (0 ≤ x + 0 ∧ x + 0 < xs ∧ 0 ≤ y + -1 ∧ y + -1 < ys ∧
      (x + 0, y + -1) ≠ (x, y)) ↔ (0 ≤ y + -1) := by
    simp [Prod.ext_iff]; omega
  have e5 : (0 ≤ x + 0 ∧ x + 0 < xs ∧ 0 ≤ y + 0 ∧ y + 0 < ys ∧
      (x + 0, y + 0) ≠ (x, y)) ↔ False := by
    simp [Prod.ext_iff]
  have e6 : (0 ≤ x + 0 ∧ x + 0 < xs ∧ 0 ≤ y + 1 ∧ y + 1 < ys ∧
      (x + 0, y + 1) ≠ (x, y)) ↔ (y + 1 < ys) := by
    simp [Prod.ext_iff]; omega
  have e7 : (0 ≤ x + 1 ∧ x + 1 < xs ∧ 0 ≤ y + -1 ∧ y + -1 < ys ∧
      (x + 1, y + -1) ≠ (x, y)) ↔ (x + 1 < xs ∧ 0 ≤ y + -1) := by
    simp [Prod.ext_iff]; omega
  have e8 : (0 ≤ x + 1 ∧ x + 1 < xs ∧ 0 ≤ y + 0 ∧ y + 0 < ys ∧
      (x + 1, y + 0) ≠ (x, y)) ↔ (x + 1 < xs) := by
    simp [Prod.ext_iff]; omega
  have e9 : (0 ≤ x + 1 ∧ x + 1 < xs ∧ 0 ≤ y + 1 ∧ y + 1 < ys ∧
      (x + 1, y + 1) ≠ (x, y)) ↔ (x + 1 < xs ∧ y + 1 < ys) := by
    simp [Prod.ext_iff]; omega
  refine ⟨?_, ?_, hmem⟩ <;>
    simp only [get_neighbor_positions, neighborOffsets, List.filterMap_cons,
      List.filterMap_nil, e1, e2, e3, e4, e5, e6, e7, e8, e9] <;>
    (by_cases hP1 : 0 ≤ x + -1 <;> by_cases hP2 : x + 1 < xs <;>
      by_cases hQ1 : 0 ≤ y + -1 <;> by_cases hQ2 : y + 1 < ys <;>
      simp [hP1, hP2, hQ1, hQ2] <;> omega)

/-- Witness for claim C8 at the concrete corner (0, 0) of a 4 by 4 grid. -/
theorem neighbor_positions_spec_witness :
    3 ≤ (get_neighbor_positions 4 4 ((0 : Int), (0 : Int))).length ∧
    (get_neighbor_positions 4 4 ((0 : Int), (0 : Int))).length ≤ 8 ∧
    ∀ q ∈ get_neighbor_positions 4 4 ((0 : Int), (0 : Int)),
      0 ≤ q.1 ∧ q.1 < 4 ∧ 0 ≤ q.2 ∧ q.2 < 4 ∧ q ≠ (0, 0) :=
  neighbor_positions_spec 4 4 0 0 (by decide) (by decide) (by decide)
    (by decide) (by decide) (by decide)

/-- Claim C7: the neighbor relation is 1 on an empty cell; on a TypeA
cell it is 1 exactly when the TypeB neighbor count is zero and otherwise
a_count / b_count, symmetrically for TypeB; and as a like-to-unlike
ratio it can exceed 1. -/
theorem neighbor_relation_cases (xs ys : Int) (g : Grid) (pos : Int × Int) :
    (cellAtI g pos = Cell.empty → get_neighbor_relation xs ys g pos = 1) ∧
    (cellAtI g pos = Cell.A →
      ((count_neighbors xs ys g pos).2 = 0 →
        get_neighbor_relation xs ys g pos = 1) ∧
      ((count_neighbors xs ys g pos).2 ≠ 0 →
        get_neighbor_relation xs ys g pos =
          ((count_neighbors xs ys g pos).1 : ℚ) /
            ((count_neighbors xs ys g pos).2 : ℚ))) ∧
    (cellAtI g pos = Cell.B →
      ((count_neighbors xs ys g pos).1 = 0 →
        get_neighbor_relation xs ys g pos = 1) ∧
      ((count_neighbors xs ys g pos).1 ≠ 0 →
        get_neighbor_relation xs ys g pos =
          ((count_neighbors xs ys g pos).2 : ℚ) /
            ((count_neighbors xs ys g pos).1 : ℚ))) ∧
    (∃ gx : Grid, ∃ px : Int × Int, cellAtI gx px = Cell.A ∧
      1 < get_neighbor_relation 3 3 gx px) := by
  refine ⟨?_, ?_, ?_, ?_⟩
  · intro h
    simp only [get_neighbor_relation, h]
  · intro h
    constructor
    · intro hb
      simp only [get_neighbor_relation, h, hb, if_pos]
    · intro hb
      simp only [get_neighbor_relation, h]
      rw [if_neg hb]
  · intro h
    constructor
    · intro hb
      simp only [get_neighbor_relation, h, hb, if_pos]
    · intro hb
      simp only [get_neighbor_relation, h]
      rw [if_neg hb]
  · refine ⟨[[Cell.A, Cell.A, Cell.empty], [Cell.A, Cell.A, Cell.empty],
      [Cell.B, Cell.empty, Cell.empty]], (1, 1), by decide, ?_⟩
    have hcell : cellAtI [[Cell.A, Cell.A, Cell.empty],
        [Cell.A, Cell.A, Cell.empty], [Cell.B, Cell.empty, Cell.empty]]
        (1, 1) = Cell.A := by decide
    have hc : count_neighbors 3 3 [[Cell.A, Cell.A, Cell.empty],
        [Cell.A, Cell.A, Cell.empty], [Cell.B, Cell.empty, Cell.empty]]
        (1, 1) = (3, 1) := by decide
    simp only [get_neighbor_relation, hcell, hc]
    norm_num

/-- Witness for claim C7 at a concrete occupied position with one
opposite-type neighbor. -/
theorem neighbor_relation_cases_witness :
    cellAtI [[Cell.A, Cell.B], [Cell.empty, Cell.empty]] (0, 0)
      = Cell.A ∧
    (count_neighbors 2 2 [[Cell.A, Cell.B], [Cell.empty, Cell.empty]]
      (0, 0)).2 ≠ 0 ∧
    get_neighbor_relation 2 2 [[Cell.A, Cell.B], [Cell.empty, Cell.empty]]
      (0, 0) =
      ((count_neighbors 2 2 [[Cell.A, Cell.B], [Cell.empty, Cell.empty]]
        (0, 0)).1 : ℚ) /
      ((count_neighbors 2 2 [[Cell.A, Cell.B], [Cell.empty, Cell.empty]]
        (0, 0)).2 : ℚ) := by
  refine ⟨by decide, by decide, ?_⟩
  exact ((neighbor_relation_cases 2 2
    [[Cell.A, Cell.B], [Cell.empty, Cell.empty]] (0, 0)).2.1
    (by decide)).2 (by decide)

/-- Claim C5: for every valid configuration whose initialization
terminates, construction places exactly floor(n_agents / 2) TypeA cells
and exactly n_agents TypeB cells, so floor(n_agents / 2) + n_agents
agents in total, not n_agents. -/
theorem init_places_half_A_and_n_B (xs ys n : Nat) (sa st : ℚ)
    (seed : Tape) (m : Model) (t1 : Tape)
    (h : mkModel xs ys n sa st seed = some (m, t1)) :
    countCell m.grid Cell.A = n / 2 ∧ countCell m.grid Cell.B = n ∧
    countCell m.grid Cell.A + countCell m.grid Cell.B = n / 2 + n := by
  obtain ⟨-, -, -, -, -, -, -, -, hA, hB, -, -, -, -, -⟩ :=
    mkModel_spec xs ys n sa st seed m t1 h
  exact ⟨hA, hB, by omega⟩

-- Witness for claim C5 at the concrete configuration (3, 3, 2) with a
-- tape that places the three agents in the first row.
unseal Rat.mul Rat.inv Rat.add Rat.sub in
theorem init_places_half_A_and_n_B_witness :
    (mkModel 3 3 2 (1/2) (1/2) [0, 0, 0, 1, 0, 2]).elim False (fun r =>
      countCell r.1.grid Cell.A = 2 / 2 ∧ countCell r.1.grid Cell.B = 2 ∧
      countCell r.1.grid Cell.A + countCell r.1.grid Cell.B
        = 2 / 2 + 2) := by
  cases h : mkModel 3 3 2 (1/2) (1/2) [0, 0, 0, 1, 0, 2] with
  | none => exact absurd h (by decide)
  | some r =>
    exact init_places_half_A_and_n_B 3 3 2 (1/2) (1/2) [0, 0, 0, 1, 0, 2]
      r.1 r.2 (by rw [h])

/-- Claim C6: a Step Engine invocation that selects an agent with
neighbor relation at or above the stay threshold leaves the grid
unchanged; one below the threshold changes exactly two cells (the
selected occupied cell becomes empty and a previously empty cell takes
the agent's value, all other cells unchanged); either way every
per-value cell count, in particular the occupied count, is preserved. -/
theorem step_frame_effect (m m1 : Model) (t t1 : Tape)
    (hrect : Rect m.grid m.x_size m.y_size) (hx : 0 < m.x_size)
    (hy : 0 < m.y_size) (h : run_one_step m t = some (m1, t1)) :
    (∀ c, countCell m1.grid c = countCell m.grid c) ∧
    countCell m1.grid Cell.A + countCell m1.grid Cell.B
      = countCell m.grid Cell.A + countCell m.grid Cell.B ∧
    ∃ p t2, find_full_cell m.x_size m.y_size m.grid t = some (p, t2) ∧
      p.1 < m.x_size ∧ p.2 < m.y_size ∧ cellAt m.grid p.1 p.2 ≠ Cell.empty ∧
      ((m.stay_threshold ≤ get_neighbor_relation (m.x_size : Int)
          (m.y_size : Int) m.grid ((p.1 : Int), (p.2 : Int)) ∧
        m1.grid = m.grid ∧ t1 = t2) ∨
       (get_neighbor_relation (m.x_size : Int) (m.y_size : Int) m.grid
          ((p.1 : Int), (p.2 : Int)) < m.stay_threshold ∧
        ∃ q t3, find_empty_cell m.grid t2 = some (q, t3) ∧ q ≠ p ∧
          cellAt m.grid q.1 q.2 = Cell.empty ∧
          cellAt m1.grid p.1 p.2 = Cell.empty ∧
          cellAt m1.grid q.1 q.2 = cellAt m.grid p.1 p.2 ∧
          (∀ r s, (r, s) ≠ p → (r, s) ≠ q →
            cellAt m1.grid r s = cellAt m.grid r s) ∧ t1 = t3)) := by
  obtain ⟨-, hcnt, hrest⟩ := run_one_step_spec m m1 t t1 hrect hx hy h
  exact ⟨hcnt, by rw [hcnt Cell.A, hcnt Cell.B], hrest⟩

-- A concrete 3 by 3 model used by several witnesses: one A agent and
-- two B agents in the first row, stay threshold 0.
def witModel : Model where
  x_size := 3
  y_size := 3
  n_agents := 2
  share_a := 1/2
  stay_threshold := 0
  grid := [[Cell.A, Cell.B, Cell.B], [Cell.empty, Cell.empty, Cell.empty],
    [Cell.empty, Cell.empty, Cell.empty]]
  segregation_shares := []
  steps_run := 0

-- Witness for claim C6: on witModel the selected agent (0, 0) stays,
-- since its relation 0 meets the threshold 0.
unseal Rat.mul Rat.inv Rat.add Rat.sub in
theorem step_frame_effect_witness :
    (Rect witModel.grid witModel.x_size witModel.y_size ∧
      0 < witModel.x_size ∧ 0 < witModel.y_size ∧
      run_one_step witModel [0, 0] = some (witModel, [])) ∧
    ∀ c, countCell witModel.grid c = countCell witModel.grid c := by
  refine ⟨⟨⟨by decide, by decide⟩, by decide, by decide, by decide⟩, ?_⟩
  exact (step_frame_effect witModel witModel [0, 0] [] ⟨by decide, by decide⟩
    (by decide) (by decide) (by decide)).1

/-- Claim C9: a completed run(steps, ...) call performs exactly steps
Step Engine invocations in sequence (the StepChain), increases steps_run
by exactly steps, appends exactly one segregation share per completed
step keeping the earlier history as a prefix, and preserves the
invariant that the history length equals steps_run. -/
theorem run_counts_spec (m : Model) (steps : Nat) (pae : Bool) (pe : Int)
    (t : Tape) (mf : Model) (tf : Tape)
    (h : run m steps pae pe t = Except.ok (mf, tf)) :
    StepChain m t steps mf tf ∧
    mf.steps_run = m.steps_run + steps ∧
    mf.segregation_shares.length = m.segregation_shares.length + steps ∧
    (∃ s, mf.segregation_shares = m.segregation_shares ++ s) ∧
    (m.segregation_shares.length = m.steps_run →
      mf.segregation_shares.length = mf.steps_run) := by
  have hc : StepChain m t steps mf tf :=
    runLoop_chain pe steps m t mf tf h
  obtain ⟨h1, h2, h3⟩ := stepChain_counters m t steps mf tf hc
  exact ⟨hc, h1, h2, h3, fun he => by omega⟩

-- The state after one completed run step on witModel: the step counter
-- is 1 and the history holds the single share 3/2.
def witModelAfter : Model :=
{ witModel with steps_run := 1, segregation_shares := [3/2] }

-- Witness for claim C9: one completed run step on witModel.
unseal Rat.mul Rat.inv Rat.add Rat.sub in
theorem run_counts_spec_witness :
    run witModel 1 true (-1) [0, 0] = Except.ok (witModelAfter, []) ∧
    (StepChain witModel [0, 0] 1 witModelAfter [] ∧
     witModelAfter.steps_run = witModel.steps_run + 1 ∧
     witModelAfter.segregation_shares.length
       = witModel.segregation_shares.length + 1 ∧
     (∃ s, witModelAfter.segregation_shares
       = witModel.segregation_shares ++ s) ∧
     (witModel.segregation_shares.length = witModel.steps_run →
       witModelAfter.segregation_shares.length
         = witModelAfter.steps_run)) := by
  have h : run witModel 1 true (-1) [0, 0]
      = Except.ok (witModelAfter, []) := by rfl
  exact ⟨h, run_counts_spec witModel 1 true (-1) [0, 0] witModelAfter [] h⟩

/-- Claim C10: two models constructed from the same configuration and
the same random tape and then run with the same step count and
print_every produce identical segregation_shares histories — the engine
is a deterministic function of the configuration and the random
source. -/
theorem run_deterministic (xs ys n : Nat) (sa st : ℚ) (seed : Tape)
    (steps : Nat) (pae1 pae2 : Bool) (pe : Int) (m1 m2 mf1 mf2 : Model)
    (t1 t2 u1 u2 : Tape)
    (h1 : mkModel xs ys n sa st seed = some (m1, t1))
    (h2 : mkModel xs ys n sa st seed = some (m2, t2))
    (hr1 : run m1 steps pae1 pe t1 = Except.ok (mf1, u1))
    (hr2 : run m2 steps pae2 pe t2 = Except.ok (mf2, u2)) :
    mf1.segregation_shares = mf2.segregation_shares := by
  rw [h1] at h2
  obtain ⟨hm, ht⟩ : m1 = m2 ∧ t1 = t2 := by simpa using h2
  subst hm
  subst ht
  have k1 : runLoop pe steps m1 t1 = Except.ok (mf1, u1) := hr1
  have k2 : runLoop pe steps m1 t1 = Except.ok (mf2, u2) := hr2
  rw [k1] at k2
  obtain ⟨hm2, -⟩ : mf1 = mf2 ∧ u1 = u2 := by simpa using k2
  rw [hm2]

-- Witness for claim C10: the same construction and run performed twice.
unseal Rat.mul Rat.inv Rat.add Rat.sub in
theorem run_deterministic_witness :
    mkModel 3 3 2 (1/2) 0 [0, 0, 0, 1, 0, 2, 0, 0]
      = some (witModel, [0, 0]) ∧
    run witModel 1 true (-1) [0, 0] = Except.ok (witModelAfter, []) ∧
    witModelAfter.segregation_shares
      = witModelAfter.segregation_shares := by
  have h1 : mkModel 3 3 2 (1/2) 0 [0, 0, 0, 1, 0, 2, 0, 0]
      = some (witModel, [0, 0]) := by decide
  have h2 : run witModel 1 true (-1) [0, 0]
      = Except.ok (witModelAfter, []) := by rfl
  exact ⟨h1, h2, run_deterministic 3 3 2 (1/2) 0 [0, 0, 0, 1, 0, 2, 0, 0]
    1 true true (-1) witModel witModel witModelAfter witModelAfter
    [0, 0] [0, 0] [] [] h1 h1 h2 h2⟩

-- Counterexample to claim C1 as stated: a validly constructed 3 by 3
-- model with n_agents = 2 and stay threshold 0 whose segregation share
-- is 3/2 > 1 immediately after construction.
unseal Rat.mul Rat.inv Rat.add Rat.sub in
theorem segregation_exceeds_one_cex :
    (mkModel 3 3 2 (1/2) 0 [0, 0, 0, 1, 0, 2]).map
      (fun r => decide (get_segregation r.1 ≤ 1)) = some false := by decide

/-- Claim C1 (amended): for every validly constructed model and every
reachable simulation state, get_segregation lies between 0 and
(floor(n_agents/2) + n_agents) / n_agents; the upper bound is not 1
because initialization places floor(n/2) + n agents while the divisor
stays n_agents. -/
theorem segregation_bounded_by_occupied (xs ys n : Nat) (sa st : ℚ)
    (seed t0 tf : Tape) (m0 m : Model) (k : Nat)
    (h1 : mkModel xs ys n sa st seed = some (m0, t0))
    (h2 : StepChain m0 t0 k m tf) :
    0 ≤ get_segregation m ∧
    get_segregation m ≤ ((n / 2 + n : Nat) : ℚ) / (n : ℚ) := by
  obtain ⟨hxs, hys, hn, -, -, -, -, hrect, hA, hB, -, hx1, hy1, hn1, -⟩ :=
    mkModel_spec xs ys n sa st seed m0 t0 h1
  have hrect0 : Rect m0.grid m0.x_size m0.y_size := by
    rw [hxs, hys]; exact hrect
  have hx0 : 0 < m0.x_size := by rw [hxs]; omega
  have hy0 : 0 < m0.y_size := by rw [hys]; omega
  obtain ⟨j1, j2, j3, j4, j5, j6⟩ :=
    stepChain_grid m0 t0 k m tf h2 hrect0 hx0 hy0
  constructor
  · exact div_nonneg (Nat.cast_nonneg _) (Nat.cast_nonneg _)
  · have hr : Rect m.grid m.x_size m.y_size := by
      rw [j1, j2, hxs, hys]
      rw [hxs, hys] at j5
      exact j5
    have hocc : countCell m.grid Cell.A + countCell m.grid Cell.B
        = n / 2 + n := by
      rw [j6 Cell.A, j6 Cell.B, hA, hB]
    have hstay : stayingCount m ≤ n / 2 + n := by
      have hle := stayingCount_le_occupied m hr
      omega
    unfold get_segregation
    rw [j3, hn]
    have hn0 : 0 < n := by omega
    have hnq : (0 : ℚ) < (n : ℚ) := by exact_mod_cast hn0
    exact (div_le_div_iff_of_pos_right hnq).mpr (by exact_mod_cast hstay)

-- Witness for claim C1 (amended) at the construction state of witModel.
unseal Rat.mul Rat.inv Rat.add Rat.sub in
theorem segregation_bounded_by_occupied_witness :
    mkModel 3 3 2 (1/2) 0 [0, 0, 0, 1, 0, 2] = some (witModel, []) ∧
    (0 ≤ get_segregation witModel ∧
     get_segregation witModel ≤ ((2 / 2 + 2 : Nat) : ℚ) / (2 : ℚ)) := by
  have h1 : mkModel 3 3 2 (1/2) 0 [0, 0, 0, 1, 0, 2]
      = some (witModel, []) := by decide
  exact ⟨h1, segregation_bounded_by_occupied 3 3 2 (1/2) 0
    [0, 0, 0, 1, 0, 2] [] [] witModel witModel 0 h1
    (StepChain.zero witModel [])⟩

-- Counterexample to claim C3 as stated: the valid configuration
-- x_size = 2, y_size = 3, n_agents = 4 places 2 + 4 = 6 agents, filling
-- all six cells, so the reachable construction state has no empty cell.
unseal Rat.mul Rat.inv Rat.add Rat.sub in
theorem no_empty_cell_reachable_cex :
    (mkModel 2 3 4 (1/2) (1/2) [0, 0, 0, 1, 0, 2, 1, 0, 1, 1, 1, 2]).map
      (fun r => decide (1 ≤ countCell r.1.grid Cell.empty))
      = some false := by decide

/-- Claim C3 (amended): when additionally floor(n_agents/2) + n_agents,
the number of agents actually placed, is below x_size * y_size, every
state reachable from construction has at least one empty and at least
one occupied cell, and on each such state some random tape makes
find_empty_cell, and some random tape makes find_full_cell, return a
cell. -/
theorem empty_and_full_cells_exist (xs ys n : Nat) (sa st : ℚ)
    (seed t0 tf : Tape) (m0 m : Model) (k : Nat)
    (h1 : mkModel xs ys n sa st seed = some (m0, t0))
    (hcap : n / 2 + n < xs * ys)
    (h2 : StepChain m0 t0 k m tf) :
    1 ≤ countCell m.grid Cell.empty ∧
    1 ≤ countCell m.grid Cell.A + countCell m.grid Cell.B ∧
    (∃ t, (find_empty_cell m.grid t).isSome = true) ∧
    (∃ t, (find_full_cell m.x_size m.y_size m.grid t).isSome = true) := by
  obtain ⟨hxs, hys, hn, -, -, -, -, hrect, hA, hB, hE, hx1, hy1, hn1, -⟩ :=
    mkModel_spec xs ys n sa st seed m0 t0 h1
  have hrect0 : Rect m0.grid m0.x_size m0.y_size := by
    rw [hxs, hys]; exact hrect
  have hx0 : 0 < m0.x_size := by rw [hxs]; omega
  have hy0 : 0 < m0.y_size := by rw [hys]; omega
  obtain ⟨j1, j2, j3, j4, j5, j6⟩ :=
    stepChain_grid m0 t0 k m tf h2 hrect0 hx0 hy0
  have hr : Rect m.grid m.x_size m.y_size := by
    rw [j1, j2, hxs, hys]
    rw [hxs, hys] at j5
    exact j5
  have hxm : 0 < m.x_size := by rw [j1, hxs]; omega
  have hEm : countCell m.grid Cell.empty + (n / 2 + n) = xs * ys := by
    rw [j6 Cell.empty]; exact hE
  have hAm : countCell m.grid Cell.A = n / 2 := by rw [j6 Cell.A]; exact hA
  have hBm : countCell m.grid Cell.B = n := by rw [j6 Cell.B]; exact hB
  refine ⟨by omega, by omega, ?_, ?_⟩
  · obtain ⟨px, py, hpx, hpy, hpc⟩ :=
      exists_pos_of_countCell m.grid Cell.empty (by omega)
    have hpxx : px < m.x_size := by rwa [hr.1] at hpx
    have hpyy : py < (m.grid.headD []).length := by
      rw [rect_headD m.grid m.x_size m.y_size hr hxm]
      rwa [rect_getD m.grid m.x_size m.y_size hr px hpxx] at hpy
    refine ⟨[px, py], ?_⟩
    rw [find_empty_cell_hit m.grid px py hpx hpyy hpc]
    rfl
  · obtain ⟨px, py, hpx, hpy, hpc⟩ :=
      exists_pos_of_countCell m.grid Cell.B (by omega)
    have hpxx : px < m.x_size := by rwa [hr.1] at hpx
    have hpyy : py < m.y_size := by
      rwa [rect_getD m.grid m.x_size m.y_size hr px hpxx] at hpy
    refine ⟨[px, py], ?_⟩
    rw [find_full_cell_hit m.x_size m.y_size m.grid px py hpxx hpyy
      (by rw [hpc]; simp)]
    rfl

-- Witness for claim C3 (amended) at the construction state of witModel,
-- where 1 + 2 = 3 of the 9 cells are occupied.
unseal Rat.mul Rat.inv Rat.add Rat.sub in
theorem empty_and_full_cells_exist_witness :
    mkModel 3 3 2 (1/2) 0 [0, 0, 0, 1, 0, 2] = some (witModel, []) ∧
    2 / 2 + 2 < 3 * 3 ∧
    (1 ≤ countCell witModel.grid Cell.empty ∧
     1 ≤ countCell witModel.grid Cell.A + countCell witModel.grid Cell.B ∧
     (∃ t, (find_empty_cell witModel.grid t).isSome = true) ∧
     (∃ t, (find_full_cell witModel.x_size witModel.y_size witModel.grid
       t).isSome = true)) := by
  have h1 : mkModel 3 3 2 (1/2) 0 [0, 0, 0, 1, 0, 2]
      = some (witModel, []) := by decide
  exact ⟨h1, by decide, empty_and_full_cells_exist 3 3 2 (1/2) 0
    [0, 0, 0, 1, 0, 2] [] [] witModel witModel 0 h1 (by decide)
    (StepChain.zero witModel [])⟩

-- Counterexample to claim C4 as stated: in the 4 by 4 scenario with
-- n_agents = 4, share_a = 0.5, stay_threshold = 0, after one run step
-- get_segregation is not 1 (it is 3/2, since 2 + 4 = 6 agents are
-- placed but the divisor is 4).
unseal Rat.mul Rat.inv Rat.add Rat.sub in
theorem scenario44_segregation_ne_one_cex :
    ((mkModel 4 4 4 (1/2) 0 [0, 0, 0, 1, 0, 2, 0, 3, 1, 0, 1, 1]).bind
      (fun r => (run r.1 1 false (-1) [0, 0]).toOption)).map
      (fun r => decide (get_segregation r.1 = 1)) = some false := by decide

/-- Claim C4 (amended): in the scenario of a 4×4 grid with n_agents = 4,
share_a = 0.5 and stay_threshold = 0, every neighbor_relation value is
≥ 0 (hence ≥ the threshold), and in every reachable state, after any
number of steps, get_segregation equals exactly 3/2 — not 1.0, because
six agents are placed while the divisor is the configured four. -/
theorem scenario44_relation_nonneg_seg_const (seed t0 tf : Tape)
    (m0 m : Model) (k : Nat)
    (h1 : mkModel 4 4 4 (1/2) 0 seed = some (m0, t0))
    (h2 : StepChain m0 t0 k m tf) :
    (∀ pos : Int × Int, 0 ≤ get_neighbor_relation (m.x_size : Int)
      (m.y_size : Int) m.grid pos) ∧
    get_segregation m = 3 / 2 := by
  obtain ⟨hxs, hys, hn, -, hst, -, -, hrect, hA, hB, -, -, -, -, -⟩ :=
    mkModel_spec 4 4 4 (1/2) 0 seed m0 t0 h1
  have hrect0 : Rect m0.grid m0.x_size m0.y_size := by
    rw [hxs, hys]; exact hrect
  have hx0 : 0 < m0.x_size := by rw [hxs]; omega
  have hy0 : 0 < m0.y_size := by rw [hys]; omega
  obtain ⟨j1, j2, j3, j4, j5, j6⟩ :=
    stepChain_grid m0 t0 k m tf h2 hrect0 hx0 hy0
  refine ⟨fun pos => get_neighbor_relation_nonneg _ _ _ _, ?_⟩
  have hr : Rect m.grid m.x_size m.y_size := by
    rw [j1, j2, hxs, hys]
    rw [hxs, hys] at j5
    exact j5
  have hthr : m.stay_threshold ≤ 0 := by rw [j4, hst]
  have hsc := stayingCount_eq_occupied m hr hthr
  unfold get_segregation
  rw [hsc, j6 Cell.A, j6 Cell.B, hA, hB, j3, hn]
  norm_num

-- Witness for claim C4 (amended) at a concrete 4 by 4 construction.
unseal Rat.mul Rat.inv Rat.add Rat.sub in
theorem scenario44_relation_nonneg_seg_const_witness :
    (mkModel 4 4 4 (1/2) 0 [0, 0, 0, 1, 0, 2, 0, 3, 1, 0, 1, 1]).elim
      False (fun r =>
        (∀ pos : Int × Int, 0 ≤ get_neighbor_relation (r.1.x_size : Int)
          (r.1.y_size : Int) r.1.grid pos) ∧
        get_segregation r.1 = 3 / 2) := by
  cases h : mkModel 4 4 4 (1/2) 0 [0, 0, 0, 1, 0, 2, 0, 3, 1, 0, 1, 1] with
  | none => exact absurd h (by decide)
  | some r =>
    exact scenario44_relation_nonneg_seg_const
      [0, 0, 0, 1, 0, 2, 0, 3, 1, 0, 1, 1] r.2 r.2 r.1 r.1 0 (by rw [h])
      (StepChain.zero r.1 r.2)

unseal Rat.mul Rat.inv Rat.add Rat.sub in
/-- Claim C2 (code bug): run with print_every = 0 is not guarded in the
source: on a validly constructed model, a single run step evaluates
steps_run % 0 and raises ZeroDivisionError, modelled here as the
zeroDivision run error, instead of completing with periodic printing
disabled. -/
theorem run_print_every_zero_fault :
    (mkModel 3 3 2 (1/2) 0 [0, 0, 0, 1, 0, 2]).map
      (fun r => match run r.1 1 true 0 [0, 0] with
        | Except.error e => some e
        | Except.ok _ => none) = some (some RunError.zeroDivision) := by
  decide
